import Mathlib

/-!
Formal model of the QuizIt spaced-repetition core (src/js/srs-algorithm.js,
src/js/utils.js, src/unnamed/part_000).

JavaScript numbers are modelled as exact rationals (`ℚ`); all the constants
that occur in the algorithms (0.1, 0.08, 0.02, 1.3, 2.5, 0.5, 86400000) are
exactly representable in binary or small enough that the double-precision
rounding error never affects any comparison or branch proved about below, so
the rational model decides every branch the same way the JavaScript engine
does.  Functions that call `Date.now()` internally receive an explicit `now`
argument modelling the value returned by that call.  `Math.random()`-driven
code receives an explicit stream of random choices.
-/

namespace Quizit

/-- The SRS-relevant state of one flashcard, as created by `db.createCard`
(easeFactor, interval, repetitions, nextReview) plus its identity. -/
structure Card where
  id : ℕ
  easeFactor : ℚ
  interval : ℚ
  repetitions : ℕ
  nextReview : ℚ
deriving DecidableEq

instance : Inhabited Card := ⟨⟨0, 0, 0, 0, 0⟩⟩

/-- Shallow embedding of `SRSAlgorithm.calculateNextReview` (srs-algorithm.js
lines 25-67).  The source reads `Date.now()` at line 58; `now` models the
value returned by that internal call (the function itself takes only
`(card, quality)`). -/
def calculateNextReview (card : Card) (quality : ℚ) (now : ℚ) : Card :=
  let q := max 0 (min 5 quality)
  let repetitions : ℕ := if q < 3 then 0 else card.repetitions + 1
  let interval : ℚ :=
    if q < 3 then 0
    else if card.repetitions + 1 = 1 then 1
    else if card.repetitions + 1 = 2 then 6
    else ((round (card.interval * card.easeFactor) : ℤ) : ℚ)
  let ef := card.easeFactor + (0.1 - (5 - q) * (0.08 + (5 - q) * 0.02))
  let easeFactor := max 1.3 ef
  let nextReview := now + interval * (24 * 60 * 60 * 1000)
  { card with
      easeFactor := easeFactor
      interval := interval
      repetitions := repetitions
      nextReview := nextReview }

/-- Shallow embedding of `SRSAlgorithm.getCardPriority` (lines 76-100); `now`
models the internal `Date.now()` call at line 77. -/
def getCardPriority (card : Card) (now : ℚ) : ℚ :=
  let daysSinceReview := (now - card.nextReview) / (24 * 60 * 60 * 1000)
  let priority : ℚ := 0
  let priority :=
    if daysSinceReview > 0 then priority - daysSinceReview * 10
    else priority + |daysSinceReview|
  let priority := priority + (3 - card.easeFactor) * 5
  let priority := priority + (10 - (card.repetitions : ℚ)) * (0.5 : ℚ)
  priority

/-- Shallow embedding of `SRSAlgorithm.isCardDue` (lines 120-122); `now`
models the internal `Date.now()` call. -/
def isCardDue (card : Card) (now : ℚ) : Bool :=
  decide (card.nextReview ≤ now)

/-- Result record of `SRSAlgorithm.getCardStudyStatus` (the `nextReviewDate`
field, a `Date` wrapper around `card.nextReview`, is omitted). -/
structure StudyStatus where
  status : String
  difficulty : String
  mastery : ℕ
  isNew : Bool
  isDue : Bool
  daysSinceReview : ℤ
deriving DecidableEq

/-- Shallow embedding of `SRSAlgorithm.getCardStudyStatus` (lines 130-175);
`now` models the internal `Date.now()` calls. -/
def getCardStudyStatus (card : Card) (now : ℚ) : StudyStatus :=
  let isNew := card.repetitions == 0
  let isDue := isCardDue card now
  let daysSinceReview : ℤ := ⌊(now - card.nextReview) / (24 * 60 * 60 * 1000)⌋
  let status := if isNew then "new" else if isDue then "review" else "learning"
  let difficulty :=
    if card.easeFactor ≥ 2.5 then "easy"
    else if card.easeFactor ≥ 2.0 then "medium"
    else "hard"
  let mastery : ℕ :=
    if card.repetitions = 0 then 0
    else if card.repetitions < 3 then 33
    else if card.repetitions < 6 then 66
    else 100
  { status := status
    difficulty := difficulty
    mastery := mastery
    isNew := isNew
    isDue := isDue
    daysSinceReview := if isDue then daysSinceReview else -daysSinceReview }

/-- The JavaScript object lookup `mapping[simpleRating]` of
`SRSAlgorithm.mapSimpleRatingToQuality` (lines 220-225): `none` models the
`undefined` produced by a key that is absent. -/
def simpleRatingLookup (simpleRating : ℤ) : Option ℤ :=
  if simpleRating = 1 then some 0
  else if simpleRating = 2 then some 3
  else if simpleRating = 3 then some 4
  else if simpleRating = 4 then some 5
  else none

/-- Shallow embedding of `SRSAlgorithm.mapSimpleRatingToQuality` (lines
213-228).  The source returns `mapping[simpleRating] || 3`; in JavaScript
both `undefined` and the number `0` are falsy, so the `|| 3` branch is taken
for an absent key and also when the looked-up value is `0`. -/
def mapSimpleRatingToQuality (simpleRating : ℤ) : ℤ :=
  match simpleRatingLookup simpleRating with
  | some v => if v = 0 then 3 else v
  | none => 3

/-- Stable insertion of a card into a list already sorted by priority: the
card goes in front of the first element whose priority is not smaller.  Used
to realize `SRSAlgorithm.sortCardsByPriority` below. -/
def insertByPriority (now : ℚ) (c : Card) : List Card → List Card
  | [] => [c]
  | d :: ds =>
      if getCardPriority c now ≤ getCardPriority d now then c :: d :: ds
      else d :: insertByPriority now c ds

/-- Shallow embedding of `SRSAlgorithm.sortCardsByPriority` (lines 108-112):
`cards.sort((a, b) => getCardPriority(a) - getCardPriority(b))`.
`Array.prototype.sort` is required to be stable (ECMAScript 2019), and on the
total preorder induced by the numeric comparator the stable-sorted result is
unique, so the call is modelled by stable insertion sort on the priority
score.  `now` models the `Date.now()` value used by `getCardPriority`,
constant for the duration of one sort call. -/
def sortCardsByPriority (now : ℚ) : List Card → List Card
  | [] => []
  | c :: cs => insertByPriority now c (sortCardsByPriority now cs)

/-- Swap of two positions of a list, as performed by the destructuring
assignment in `shuffleArray`; out-of-range indices leave the list unchanged
(they never occur in the loop). -/
def listSwap {α : Type _} (l : List α) (i j : ℕ) : List α :=
  match l[i]?, l[j]? with
  | some a, some b => (l.set i b).set j a
  | _, _ => l

/-- The descending `for` loop of `utils.shuffleArray` (utils.js lines 76-83):
at index `i` the element is swapped with the one at
`Math.floor(Math.random() * (i + 1))`.  `r i` models that random draw; it is
reduced mod `i + 1`, the range the JavaScript expression always lies in. -/
def fisherYates {α : Type _} (r : ℕ → ℕ) : ℕ → List α → List α
  | 0, l => l
  | i + 1, l => fisherYates r i (listSwap l (i + 1) (r (i + 1) % (i + 2)))

/-- Shallow embedding of `utils.shuffleArray`.  The source first copies the
input (`const shuffled = [...array]`) and mutates only the copy, so the input
array is left untouched; the model returns the shuffled copy. -/
def shuffleArray {α : Type _} (r : ℕ → ℕ) (l : List α) : List α :=
  fisherYates r (l.length - 1) l

/-- The test-mode state of `StudyModesManager` that the replenishment logic
reads: the full card pool (`this.cards`), the current test deck
(`this.testCards`), the per-session correctness lists, and the target count
(`none` models a null `this.testTargetCount`). -/
structure TestSession where
  cards : List Card
  testCards : List Card
  correctCards : List Card
  incorrectCards : List Card
  testTargetCount : Option ℕ
deriving DecidableEq

/-- The correct/incorrect bookkeeping of `checkTestAnswer` (srs-algorithm.js
lines 771-781): a card is appended to `correctCards` (resp. `incorrectCards`)
when no card with the same id is already present; nothing is ever removed. -/
def trackAnswer (s : TestSession) (card : Card) (correct : Bool) : TestSession :=
  if correct then
    if (s.correctCards.find? (fun c => c.id == card.id)).isNone then
      { s with correctCards := s.correctCards ++ [card] }
    else s
  else
    if (s.incorrectCards.find? (fun c => c.id == card.id)).isNone then
      { s with incorrectCards := s.incorrectCards ++ [card] }
    else s

/-- A sequence of submitted answers, applied in order through `trackAnswer`. -/
def runAnswers (s : TestSession) (answers : List (Card × Bool)) : TestSession :=
  answers.foldl (fun st ab => trackAnswer st ab.1 ab.2) s

/-- One replenishment loop of `selectAdditionalCards`: `n` iterations pushing
`source[i % source.length]`; an empty source contributes nothing (the loop
guard `source.length > 0`). -/
def cycleTake (source : List Card) (n : ℕ) : List Card :=
  if source.length = 0 then []
  else (List.range n).map (fun i => source.getD (i % source.length) default)

/-- Shallow embedding of `selectAdditionalCards` (lines 829-863) up to, but
not including, the final `shuffleArray` call: `ceil(count * 3 / 4)` draws
cycling through `incorrectCards`, the remainder cycling through
`correctCards`, and, when those loops produced fewer than `count` cards, the
shortfall cycling through the full pool `this.cards`. -/
def selectAdditionalCardsCore (s : TestSession) (count : ℕ) : List Card :=
  let incorrectCount := (⌈(count : ℚ) * 3 / 4⌉).toNat
  let correctCount := count - incorrectCount
  let acc := cycleTake s.incorrectCards incorrectCount
  let acc := acc ++ cycleTake s.correctCards correctCount
  if acc.length < count then acc ++ cycleTake s.cards (count - acc.length)
  else acc

/-- Shallow embedding of `selectAdditionalCards` including the final
`shuffleArray` of the drawn batch; `r` models the random draws. -/
def selectAdditionalCards (r : ℕ → ℕ) (s : TestSession) (count : ℕ) : List Card :=
  shuffleArray r (selectAdditionalCardsCore s count)

/-- The deficit computed by `nextTestQuestion` (lines 802-812) at the moment
the deck is exhausted: `targetCount - this.testCards.length`, where
`targetCount` is `this.testTargetCount || this.testCards.length` (`0` and
`null` are both falsy).  Every card of the deck has been presented at that
point, so the subtrahend is also the presented count. -/
def replenishDeficit (s : TestSession) : ℕ :=
  let targetCount :=
    match s.testTargetCount with
    | some t => if t = 0 then s.testCards.length else t
    | none => s.testCards.length
  targetCount - s.testCards.length

/-- A study session record as stored by `db.createSession` / `db.endSession`
(part_000): `endTime = none` models a null `endTime`. -/
structure Session where
  startTime : ℚ
  endTime : Option ℚ
  correctCount : ℕ
  incorrectCount : ℕ
deriving DecidableEq

/-- Result record of `db.getSetStatistics`. -/
structure SetStatistics where
  totalCards : ℕ
  totalSessions : ℕ
  totalTime : ℚ
  accuracy : ℚ
  masteryLevel : ℚ
  totalCorrect : ℕ
  totalIncorrect : ℕ
deriving DecidableEq

/-- Shallow embedding of the pure computation of `db.getSetStatistics`
(part_000 lines 303-335), applied to the cards and sessions the database
returned for the set.  Only sessions with a non-null `endTime` contribute to
the totals. -/
def getSetStatistics (cards : List Card) (sessions : List Session) : SetStatistics :=
  let totals : ℕ × ℕ × ℚ :=
    sessions.foldl
      (fun t s =>
        match s.endTime with
        | some e => (t.1 + s.correctCount, t.2.1 + s.incorrectCount, t.2.2 + (e - s.startTime))
        | none => t)
      (0, 0, 0)
  let totalCorrect := totals.1
  let totalIncorrect := totals.2.1
  let totalTime := totals.2.2
  let totalAttempts := totalCorrect + totalIncorrect
  let accuracy : ℚ :=
    if totalAttempts > 0 then ((totalCorrect : ℚ) / (totalAttempts : ℚ)) * 100 else 0
  let masteredCards :=
    (cards.filter (fun c => decide (c.easeFactor > 2.5 ∧ c.interval ≥ 1))).length
  let masteryLevel : ℚ :=
    if cards.length > 0 then ((masteredCards : ℚ) / (cards.length : ℚ)) * 100 else 0
  { totalCards := cards.length
    totalSessions := sessions.length
    totalTime := totalTime
    accuracy := accuracy
    masteryLevel := masteryLevel
    totalCorrect := totalCorrect
    totalIncorrect := totalIncorrect }

/-- Concrete cards used by the evaluation theorems below. -/
def cardA : Card := { id := 1, easeFactor := 5/2, interval := 0, repetitions := 0, nextReview := 0 }

/-- Second concrete card. -/
def cardB : Card := { id := 2, easeFactor := 5/2, interval := 0, repetitions := 0, nextReview := 0 }

/-- Third concrete card. -/
def cardC : Card := { id := 3, easeFactor := 5/2, interval := 0, repetitions := 0, nextReview := 0 }

/-- A card with a nonzero repetition count, used to exercise the non-new
branches of the classifier. -/
def cardLearned : Card := { id := 4, easeFactor := 2, interval := 6, repetitions := 2, nextReview := 100 }

/-- The composer state at the start of a test run: both correctness lists
are empty, as initialized in the `StudyModesManager` constructor (lines
280-281). -/
def startSession (cards testCards : List Card) (target : Option ℕ) : TestSession :=
  { cards := cards
    testCards := testCards
    correctCards := []
    incorrectCards := []
    testTargetCount := target }

/-- A card that already satisfies the mastery filter of `getSetStatistics`
(easeFactor above 2.5 and interval of at least one day). -/
def masteredCard : Card := { id := 9, easeFactor := 3, interval := 2, repetitions := 7, nextReview := 0 }

/-- The three-card pool of Scenario D. -/
def pool3 : List Card := [cardA, cardB, cardC]

/-- Scenario D's session state: pool of three cards, target count 5 (so the
whole pool became the deck), and all three cards answered correctly.  The
presentation order is the pool order; the initial shuffle only permutes it
and plays no role in the sizes involved. -/
def scenarioSession : TestSession :=
  runAnswers (startSession pool3 pool3 (some 5))
    [(cardA, true), (cardB, true), (cardC, true)]

/-- A session where only one of the three pool cards was answered (correctly),
used to exercise the replenishment fallback. -/
def lopsidedSession : TestSession :=
  runAnswers (startSession pool3 pool3 (some 5)) [(cardA, true)]

/-- A session with both correctness lists non-empty. -/
def mixedSession : TestSession :=
  { cards := pool3
    testCards := pool3
    correctCards := [cardB]
    incorrectCards := [cardA]
    testTargetCount := some 7 }

/-- Consing the element stored at position `k` onto the list with that
position overwritten by `x` permutes consing `x` onto the original list. -/
theorem cons_set_perm {α : Type _} (x : α) :
    ∀ (l : List α) (k : ℕ) (b : α), l[k]? = some b →
      List.Perm (b :: l.set k x) (x :: l)
  | [], k, b, h => by simp at h
  | a :: t, 0, b, h => by
      simp only [List.getElem?_cons_zero, Option.some.injEq] at h
      cases h
      simpa [List.set] using List.Perm.swap x a t
  | a :: t, k + 1, b, h => by
      simp only [List.getElem?_cons_succ] at h
      have ih := cons_set_perm x t k b h
      have s1 : List.Perm (b :: a :: t.set k x) (a :: b :: t.set k x) :=
        List.Perm.swap a b _
      have s2 : List.Perm (a :: b :: t.set k x) (a :: (x :: t)) := ih.cons a
      have s3 : List.Perm (a :: x :: t) (x :: a :: t) := List.Perm.swap x a t
      simpa [List.set] using (s1.trans s2).trans s3

/-- Swapping two positions of a list is a permutation. -/
theorem listSwap_perm {α : Type _} (l : List α) (i j : ℕ) :
    List.Perm (listSwap l i j) l := by
  unfold listSwap
  rcases hi : l[i]? with _ | a
  · exact List.Perm.refl l
  rcases hj : l[j]? with _ | b
  · exact List.Perm.refl l
  have hjl : j < l.length := (List.getElem?_eq_some.mp hj).1
  have hset : (l.set i b)[j]? = some b := by
    rcases eq_or_ne i j with rfl | hne
    · simp [List.getElem?_set, hjl]
    · rw [List.getElem?_set_ne hne]
      exact hj
  have h1 : List.Perm (a :: l.set i b) (b :: l) := cons_set_perm b l i a hi
  have h2 : List.Perm (b :: (l.set i b).set j a) (a :: l.set i b) :=
    cons_set_perm a (l.set i b) j b hset
  exact (h2.trans h1).cons_inv

/-- Every pass of the Fisher-Yates loop permutes the list. -/
theorem fisherYates_perm {α : Type _} (r : ℕ → ℕ) :
    ∀ (n : ℕ) (l : List α), List.Perm (fisherYates r n l) l
  | 0, l => List.Perm.refl l
  | n + 1, l => (fisherYates_perm r n _).trans (listSwap_perm l _ _)

/-- C10: for every stream of random draws, `shuffleArray` returns a
permutation of its input — same length and same multiset of elements — so
the Composer's shuffles at session start and at replenishment never drop,
duplicate, or alter the selected items.  The JavaScript function copies the
input (`[...array]`) and swaps only inside the fresh copy, which the model
reflects by returning a new list and leaving the input term untouched. -/
theorem c10_shuffle_is_permutation {α : Type _} (r : ℕ → ℕ) (l : List α) :
    List.Perm (shuffleArray r l) l ∧
    (shuffleArray r l).length = l.length ∧
    ((shuffleArray r l : List α) : Multiset α) = (l : Multiset α) := by
  have hp : List.Perm (shuffleArray r l) l := fisherYates_perm r (l.length - 1) l
  exact ⟨hp, hp.length_eq, Multiset.coe_eq_coe.mpr hp⟩

/-- Stable insertion permutes consing the element in front. -/
theorem insertByPriority_perm (now : ℚ) (c : Card) :
    ∀ l : List Card, List.Perm (insertByPriority now c l) (c :: l)
  | [] => List.Perm.refl _
  | d :: ds => by
      unfold insertByPriority
      split
      · exact List.Perm.refl _
      · exact ((insertByPriority_perm now c ds).cons d).trans (List.Perm.swap c d ds)

/-- The priority sort permutes its input. -/
theorem sortCardsByPriority_perm (now : ℚ) :
    ∀ l : List Card, List.Perm (sortCardsByPriority now l) l
  | [] => List.Perm.refl _
  | c :: cs =>
      (insertByPriority_perm now c _).trans ((sortCardsByPriority_perm now cs).cons c)

/-- Stable insertion preserves sortedness by priority. -/
theorem insertByPriority_pairwise (now : ℚ) (c : Card) {l : List Card}
    (h : l.Pairwise (fun a b => getCardPriority a now ≤ getCardPriority b now)) :
    (insertByPriority now c l).Pairwise
      (fun a b => getCardPriority a now ≤ getCardPriority b now) := by
  induction l with
  | nil => simp [insertByPriority]
  | cons d ds ih =>
      rw [List.pairwise_cons] at h
      unfold insertByPriority
      split
      case isTrue hcd =>
        refine List.pairwise_cons.mpr ⟨?_, List.pairwise_cons.mpr h⟩
        intro x hx
        rcases List.mem_cons.mp hx with rfl | hx2
        · exact hcd
        · exact le_trans hcd (h.1 x hx2)
      case isFalse hcd =>
        refine List.pairwise_cons.mpr ⟨?_, ih h.2⟩
        intro x hx
        have hx2 := (insertByPriority_perm now c ds).mem_iff.mp hx
        rcases List.mem_cons.mp hx2 with rfl | hx3
        · exact le_of_not_le hcd
        · exact h.1 x hx3

/-- The priority sort produces a list sorted in ascending score order. -/
theorem sortCardsByPriority_pairwise (now : ℚ) :
    ∀ l : List Card,
      (sortCardsByPriority now l).Pairwise
        (fun a b => getCardPriority a now ≤ getCardPriority b now)
  | [] => List.Pairwise.nil
  | c :: cs => insertByPriority_pairwise now c (sortCardsByPriority_pairwise now cs)

/-- Stable insertion passes an element across only strictly-smaller scores, so
filtering by any fixed score commutes with it. -/
theorem filter_insertByPriority (now : ℚ) (c : Card) (q : ℚ) :
    ∀ l : List Card,
      (insertByPriority now c l).filter (fun d => decide (getCardPriority d now = q)) =
        if getCardPriority c now = q then
          c :: l.filter (fun d => decide (getCardPriority d now = q))
        else l.filter (fun d => decide (getCardPriority d now = q))
  | [] => by
      by_cases h : getCardPriority c now = q <;> simp [insertByPriority, List.filter, h]
  | d :: ds => by
      unfold insertByPriority
      split
      case isTrue hcd =>
        by_cases h : getCardPriority c now = q <;> simp [List.filter_cons, h]
      case isFalse hcd =>
        have ih := filter_insertByPriority now c q ds
        by_cases hq : getCardPriority c now = q
        · have hdq : getCardPriority d now ≠ q := fun hd =>
            hcd (le_of_eq (hq.trans hd.symm))
          simp [List.filter_cons, hq, hdq, ih]
        · simp [List.filter_cons, hq, ih]

/-- Filtering by any fixed priority score commutes with the sort: equal-score
items keep their input order. -/
theorem filter_sortCardsByPriority (now q : ℚ) :
    ∀ l : List Card,
      (sortCardsByPriority now l).filter (fun d => decide (getCardPriority d now = q)) =
        l.filter (fun d => decide (getCardPriority d now = q))
  | [] => rfl
  | c :: cs => by
      have h := filter_insertByPriority now c q (sortCardsByPriority now cs)
      by_cases h1 : getCardPriority c now = q <;>
        simp [sortCardsByPriority, h, filter_sortCardsByPriority now q cs,
          List.filter_cons, h1]

/-- A list already sorted by priority is left unchanged by the sort. -/
theorem sortCardsByPriority_of_pairwise (now : ℚ) :
    ∀ {l : List Card},
      l.Pairwise (fun a b => getCardPriority a now ≤ getCardPriority b now) →
      sortCardsByPriority now l = l := by
  intro l
  induction l with
  | nil => intro _; rfl
  | cons c cs ih =>
      intro h
      rw [List.pairwise_cons] at h
      have hs : sortCardsByPriority now (c :: cs) = insertByPriority now c cs := by
        simp only [sortCardsByPriority, ih h.2]
      rw [hs]
      cases cs with
      | nil => rfl
      | cons d ds =>
          have hd := h.1 d (List.mem_cons_self d ds)
          simp [insertByPriority, hd]

/-- C5: the priority sort is a stable ascending sort on the priority score:
its output is a permutation of the input sorted by ascending score, items
with any fixed score keep their original relative order, and re-sorting an
already-sorted list returns it unchanged (idempotence). -/
theorem c5_sort_stable_ascending (now : ℚ) (cards : List Card) :
    List.Perm (sortCardsByPriority now cards) cards ∧
    (sortCardsByPriority now cards).Pairwise
      (fun a b => getCardPriority a now ≤ getCardPriority b now) ∧
    (∀ q : ℚ,
      (sortCardsByPriority now cards).filter (fun d => decide (getCardPriority d now = q)) =
        cards.filter (fun d => decide (getCardPriority d now = q))) ∧
    sortCardsByPriority now (sortCardsByPriority now cards) =
      sortCardsByPriority now cards :=
  ⟨sortCardsByPriority_perm now cards, sortCardsByPriority_pairwise now cards,
    fun q => filter_sortCardsByPriority now q cards,
    sortCardsByPriority_of_pairwise now (sortCardsByPriority_pairwise now cards)⟩

/-- Unfolding one answer of `runAnswers`. -/
theorem runAnswers_cons (s : TestSession) (a : Card × Bool) (as : List (Card × Bool)) :
    runAnswers s (a :: as) = runAnswers (trackAnswer s a.1 a.2) as := rfl

/-- One tracked answer either leaves `correctCards` unchanged or appends a
card whose id was not yet present. -/
theorem trackAnswer_correct_cases (s : TestSession) (card : Card) (b : Bool) :
    (trackAnswer s card b).correctCards = s.correctCards ∨
    ((trackAnswer s card b).correctCards = s.correctCards ++ [card] ∧
      card.id ∉ s.correctCards.map (fun c => c.id)) := by
  unfold trackAnswer
  split
  · split
    case isTrue hfind =>
      right
      refine ⟨rfl, ?_⟩
      intro hmem
      obtain ⟨c, hc, hcid⟩ := List.mem_map.mp hmem
      have hnone := List.find?_eq_none.mp (Option.isNone_iff_eq_none.mp hfind) c hc
      simp [hcid] at hnone
    case isFalse => exact Or.inl rfl
  · split
    · exact Or.inl rfl
    · exact Or.inl rfl

/-- One tracked answer either leaves `incorrectCards` unchanged or appends a
card whose id was not yet present. -/
theorem trackAnswer_incorrect_cases (s : TestSession) (card : Card) (b : Bool) :
    (trackAnswer s card b).incorrectCards = s.incorrectCards ∨
    ((trackAnswer s card b).incorrectCards = s.incorrectCards ++ [card] ∧
      card.id ∉ s.incorrectCards.map (fun c => c.id)) := by
  unfold trackAnswer
  split
  · split
    · exact Or.inl rfl
    · exact Or.inl rfl
  · split
    case isTrue hfind =>
      right
      refine ⟨rfl, ?_⟩
      intro hmem
      obtain ⟨c, hc, hcid⟩ := List.mem_map.mp hmem
      have hnone := List.find?_eq_none.mp (Option.isNone_iff_eq_none.mp hfind) c hc
      simp [hcid] at hnone
    case isFalse => exact Or.inl rfl

/-- Ids present in a correctness list survive any further answers. -/
theorem runAnswers_mem_mono :
    ∀ (answers : List (Card × Bool)) (s : TestSession) (i : ℕ),
      (i ∈ s.correctCards.map (fun c => c.id) →
        i ∈ (runAnswers s answers).correctCards.map (fun c => c.id)) ∧
      (i ∈ s.incorrectCards.map (fun c => c.id) →
        i ∈ (runAnswers s answers).incorrectCards.map (fun c => c.id))
  | [], _, _ => ⟨id, id⟩
  | a :: as, s, i => by
      rw [runAnswers_cons]
      have ih := runAnswers_mem_mono as (trackAnswer s a.1 a.2) i
      constructor
      · intro h
        refine ih.1 ?_
        rcases trackAnswer_correct_cases s a.1 a.2 with hc | ⟨hc, _⟩ <;>
          rw [hc] <;> simp [h]
      · intro h
        refine ih.2 ?_
        rcases trackAnswer_incorrect_cases s a.1 a.2 with hc | ⟨hc, _⟩ <;>
          rw [hc] <;> simp [h]

/-- Duplicate-freeness of the id lists is preserved by any answer sequence. -/
theorem runAnswers_nodup :
    ∀ (answers : List (Card × Bool)) (s : TestSession),
      ((s.correctCards.map (fun c => c.id)).Nodup →
        ((runAnswers s answers).correctCards.map (fun c => c.id)).Nodup) ∧
      ((s.incorrectCards.map (fun c => c.id)).Nodup →
        ((runAnswers s answers).incorrectCards.map (fun c => c.id)).Nodup)
  | [], _ => ⟨id, id⟩
  | a :: as, s => by
      rw [runAnswers_cons]
      have ih := runAnswers_nodup as (trackAnswer s a.1 a.2)
      constructor
      · intro h
        refine ih.1 ?_
        rcases trackAnswer_correct_cases s a.1 a.2 with hc | ⟨hc, hnot⟩
        · rw [hc]; exact h
        · rw [hc]; simp [List.nodup_append, h, hnot]
      · intro h
        refine ih.2 ?_
        rcases trackAnswer_incorrect_cases s a.1 a.2 with hc | ⟨hc, hnot⟩
        · rw [hc]; exact h
        · rw [hc]; simp [List.nodup_append, h, hnot]

/-- C8: within one test session the correctness sets are additive only: an
id recorded in one of the two lists is still in it after any sequence of
further answers, each id occurs at most once per list (from the empty lists
of a fresh session they stay duplicate-free for every answer sequence), and
the same id can be a member of both lists at once, as a session answering
the same card first incorrectly and then correctly shows. -/
theorem c8_membership_additive :
    (∀ (s : TestSession) (answers : List (Card × Bool)) (i : ℕ),
      (i ∈ s.correctCards.map (fun c => c.id) →
        i ∈ (runAnswers s answers).correctCards.map (fun c => c.id)) ∧
      (i ∈ s.incorrectCards.map (fun c => c.id) →
        i ∈ (runAnswers s answers).incorrectCards.map (fun c => c.id))) ∧
    (∀ (cards testCards : List Card) (target : Option ℕ)
        (answers : List (Card × Bool)),
      ((runAnswers (startSession cards testCards target) answers).correctCards.map
        (fun c => c.id)).Nodup ∧
      ((runAnswers (startSession cards testCards target) answers).incorrectCards.map
        (fun c => c.id)).Nodup) ∧
    (∃ (answers : List (Card × Bool)) (i : ℕ),
      i ∈ (runAnswers (startSession [] [] none) answers).correctCards.map
        (fun c => c.id) ∧
      i ∈ (runAnswers (startSession [] [] none) answers).incorrectCards.map
        (fun c => c.id)) := by
  refine ⟨fun s answers i => runAnswers_mem_mono answers s i,
    fun cards testCards target answers =>
      ⟨(runAnswers_nodup answers _).1 (by simp [startSession]),
        (runAnswers_nodup answers _).2 (by simp [startSession])⟩, ?_⟩
  refine ⟨[(cardA, false), (cardA, true)], cardA.id, ?_, ?_⟩ <;>
    simp [runAnswers, trackAnswer, startSession]

/-- C8 witness: the additivity statement applied at a concrete session state
holding one id in each list, followed by two further answers. -/
theorem c8_membership_witness :
    cardA.id ∈ ((runAnswers
      { cards := [], testCards := [], correctCards := [cardA],
        incorrectCards := [cardB], testTargetCount := none }
      [(cardC, true), (cardC, false)]).correctCards.map (fun c => c.id)) ∧
    cardB.id ∈ ((runAnswers
      { cards := [], testCards := [], correctCards := [cardA],
        incorrectCards := [cardB], testTargetCount := none }
      [(cardC, true), (cardC, false)]).incorrectCards.map (fun c => c.id)) :=
  ⟨(c8_membership_additive.1 _ _ _).1 (by simp),
    (c8_membership_additive.1 _ _ _).2 (by simp)⟩

/-- C1: the quality table the code actually implements.  The JavaScript
`mapping[simpleRating] || 3` treats the looked-up value `0` as falsy, so the
simplified rating 1 yields quality 3 — not 0, as both the claim and the
function's own comment (`1 (Again) -> 0`) state — while 2, 3, 4 map to
3, 4, 5 and every other input maps to 3. -/
theorem c1_simple_rating_code_table :
    mapSimpleRatingToQuality 1 = 3 ∧ mapSimpleRatingToQuality 2 = 3 ∧
    mapSimpleRatingToQuality 3 = 4 ∧ mapSimpleRatingToQuality 4 = 5 ∧
    mapSimpleRatingToQuality 0 = 3 ∧ mapSimpleRatingToQuality 5 = 3 ∧
    mapSimpleRatingToQuality 1 ≠ 0 := by
  refine ⟨rfl, rfl, rfl, rfl, rfl, rfl, ?_⟩
  decide

/-- C2 counterexample: for an item with a nonzero repetition count whose next
review time has been reached, the classifier returns the status string
"review", not "due". -/
theorem c2_status_string_counterexample :
    (getCardStudyStatus cardLearned 100).status = "review" ∧
    (getCardStudyStatus cardLearned 100).status ≠ "due" := by
  constructor
  · norm_num [getCardStudyStatus, isCardDue, cardLearned]
  · norm_num [getCardStudyStatus, isCardDue, cardLearned]
    decide

/-- C2 amended: the classifier returns status "new" with mastery 0 whenever
repetitions = 0 (independent of ease and interval); otherwise it returns
"review" — the code's label for the spec's `due` — when `nextReviewAt ≤ now`,
and "learning" otherwise. -/
theorem c2_classifier_amended (card : Card) (now : ℚ) :
    (card.repetitions = 0 →
      (getCardStudyStatus card now).status = "new" ∧
      (getCardStudyStatus card now).mastery = 0) ∧
    (card.repetitions ≠ 0 → card.nextReview ≤ now →
      (getCardStudyStatus card now).status = "review") ∧
    (card.repetitions ≠ 0 → ¬card.nextReview ≤ now →
      (getCardStudyStatus card now).status = "learning") := by
  refine ⟨fun h => ?_, fun h h2 => ?_, fun h h2 => ?_⟩
  · simp [getCardStudyStatus, isCardDue, beq_iff_eq, h]
  · simp [getCardStudyStatus, isCardDue, beq_iff_eq, h, h2]
  · simp [getCardStudyStatus, isCardDue, beq_iff_eq, h, h2]

/-- C2 witness: the amended statement at concrete cards exercising each of
the three branches. -/
theorem c2_classifier_witness :
    ((getCardStudyStatus cardA 0).status = "new" ∧
      (getCardStudyStatus cardA 0).mastery = 0) ∧
    (getCardStudyStatus cardLearned 100).status = "review" ∧
    (getCardStudyStatus cardLearned 0).status = "learning" := by
  refine ⟨(c2_classifier_amended cardA 0).1 rfl, ?_, ?_⟩
  · exact (c2_classifier_amended cardLearned 100).2.1
      (by norm_num [cardLearned]) (by norm_num [cardLearned])
  · exact (c2_classifier_amended cardLearned 0).2.2
      (by norm_num [cardLearned]) (by norm_num [cardLearned])

/-- C3 counterexample: on the item of Scenario C (ease 2.0, interval 6,
repetitions 2) with quality 1, the scheduler returns ease factor 1.46, not
the claimed max(1.3, 2.0 - 0.8) = 1.3; the 0.8 ease deduction belongs to
quality 0, while quality 1 deducts 0.54. -/
theorem c3_scenario_ease_counterexample :
    (calculateNextReview cardLearned 1 0).easeFactor ≠ 13/10 := by
  norm_num [calculateNextReview, cardLearned]

/-- C3 amended: applying the scheduler to the item of Scenario C with
quality 1 yields repetitions 0 and interval 0 as claimed, but the returned
ease factor is max(1.3, 2.0 - 0.54) = 1.46. -/
theorem c3_scenario_amended :
    (calculateNextReview cardLearned 1 0).repetitions = 0 ∧
    (calculateNextReview cardLearned 1 0).interval = 0 ∧
    (calculateNextReview cardLearned 1 0).easeFactor = max 1.3 (2 - 0.54) ∧
    (calculateNextReview cardLearned 1 0).easeFactor = 1.46 := by
  norm_num [calculateNextReview, cardLearned]

/-- C4 counterexample: `calculateNextReview` takes only `(card, quality)` and
reads `Date.now()` inside its body; two calls with identical `(card, quality)`
arguments but different values of that internal clock reading return
different results, so the function is not a pure function of the arguments
the claim lists and does read the clock implicitly. -/
theorem c4_clock_dependence :
    calculateNextReview cardA 5 0 ≠ calculateNextReview cardA 5 1 := by
  intro h
  have h2 := congrArg Card.nextReview h
  norm_num [calculateNextReview, cardA] at h2

/-- C4 amended: with the internal `Date.now()` reading made explicit as
`now`, the scheduler is a deterministic function of (card, quality, now) and
the returned `nextReview` equals `now + interval * 86400000` for the returned
interval. -/
theorem c4_scheduler_clock_formula (card : Card) (quality now : ℚ) :
    (calculateNextReview card quality now).nextReview =
      now + (calculateNextReview card quality now).interval * 86400000 := by
  norm_num [calculateNextReview]

/-- C7: for every item, quality rating and clock value, the returned ease
factor equals max(1.3, easeFactor + (0.1 - (5-q)*(0.08 + (5-q)*0.02))) for
the quality q clamped to [0, 5]; in particular it is at least 1.3. -/
theorem c7_ease_factor_formula (card : Card) (quality now : ℚ) :
    (calculateNextReview card quality now).easeFactor =
      max 1.3 (card.easeFactor +
        (0.1 - (5 - max 0 (min 5 quality)) * (0.08 + (5 - max 0 (min 5 quality)) * 0.02))) ∧
    (1.3 : ℚ) ≤ (calculateNextReview card quality now).easeFactor := by
  refine ⟨rfl, ?_⟩
  exact le_max_left _ _

/-- A cyclic draw from a non-empty source yields exactly the requested number
of cards. -/
theorem cycleTake_length (l : List Card) (n : ℕ) (h : l ≠ []) :
    (cycleTake l n).length = n := by
  simp [cycleTake, h]

/-- Every card of a cyclic draw comes from the source list. -/
theorem cycleTake_subset (l : List Card) (n : ℕ) :
    ∀ c ∈ cycleTake l n, c ∈ l := by
  intro c hc
  unfold cycleTake at hc
  split at hc
  · simp at hc
  case isFalse h =>
    obtain ⟨i, _, rfl⟩ := List.mem_map.mp hc
    have hlt : i % l.length < l.length := Nat.mod_lt i (Nat.pos_of_ne_zero h)
    rw [List.getD_eq_getElem l default hlt]
    exact List.getElem_mem hlt

/-- The incorrect-draw quota never exceeds the requested batch size. -/
theorem ceilThreeQuarters_le (count : ℕ) :
    (⌈(count : ℚ) * 3 / 4⌉).toNat ≤ count := by
  have h1 : ((count : ℚ) * 3 / 4) ≤ (count : ℚ) := by
    rw [div_le_iff₀ (by norm_num : (0 : ℚ) < 4)]
    have h0 : (0 : ℚ) ≤ (count : ℚ) := Nat.cast_nonneg count
    nlinarith
  have h2 : ⌈(count : ℚ) * 3 / 4⌉ ≤ ⌈(count : ℚ)⌉ := Int.ceil_le_ceil h1
  rw [Int.ceil_natCast] at h2
  exact Int.toNat_le.mpr h2

/-- Evaluation of the quota for a deficit of two. -/
theorem ceilThreeQuarters_two : (⌈((2 : ℕ) : ℚ) * 3 / 4⌉).toNat = 2 := by
  have h : ⌈((2 : ℕ) : ℚ) * 3 / 4⌉ = 2 := by
    rw [Int.ceil_eq_iff]
    norm_num
  rw [h]
  rfl

/-- C6 counterexample: in a session whose pool holds three cards of which
only one was answered (correctly), a replenishment batch of two contains a
card that is in neither correctness list: the incorrect-quota loop finds
`answeredIncorrectly` empty and contributes nothing, the correct quota is
2 - ceil(2*3/4) = 0, and the whole batch is drawn from the full pool
fallback instead of from the two sets the claim names. -/
theorem c6_replenish_counterexample :
    cardB ∈ selectAdditionalCards (fun _ => 0) lopsidedSession 2 ∧
    cardB ∉ lopsidedSession.correctCards ∧
    cardB ∉ lopsidedSession.incorrectCards := by
  have hcore : selectAdditionalCardsCore lopsidedSession 2 = [cardA, cardB] := by
    simp only [selectAdditionalCardsCore, ceilThreeQuarters_two]
    rfl
  have hsel : selectAdditionalCards (fun _ => 0) lopsidedSession 2 = [cardB, cardA] := by
    simp only [selectAdditionalCards, hcore]
    rfl
  rw [hsel]
  have hcorr : lopsidedSession.correctCards = [cardA] := rfl
  have hinc : lopsidedSession.incorrectCards = [] := rfl
  rw [hcorr, hinc]
  refine ⟨by simp, ?_, by simp⟩
  simp [cardA, cardB]

/-- C6 amended: when both correctness lists are non-empty, the replenishment
batch (before its final shuffle) is exactly ceil(deficit*3/4) cards drawn
cyclically from `answeredIncorrectly` followed by the remainder drawn
cyclically from `answeredCorrectly`, and has exactly `deficit` cards.  When
the incorrect list is empty its whole quota is skipped and the shortfall is
drawn cyclically from the full pool instead; in Scenario D (pool of three,
target 5, all three answered correctly) the deficit is 2 and the two
replenished cards are the first two pool cards, each of which is a member of
`answeredCorrectly` because every pool card was answered correctly. -/
theorem c6_replenish_amended :
    (∀ (s : TestSession) (count : ℕ),
      s.incorrectCards ≠ [] → s.correctCards ≠ [] →
      selectAdditionalCardsCore s count =
        cycleTake s.incorrectCards (⌈(count : ℚ) * 3 / 4⌉).toNat ++
          cycleTake s.correctCards (count - (⌈(count : ℚ) * 3 / 4⌉).toNat) ∧
      (selectAdditionalCardsCore s count).length = count) ∧
    (replenishDeficit scenarioSession = 2 ∧
      selectAdditionalCardsCore scenarioSession 2 = [cardA, cardB] ∧
      ∀ c ∈ selectAdditionalCardsCore scenarioSession 2,
        c ∈ scenarioSession.correctCards) := by
  constructor
  · intro s count h1 h2
    have hic := ceilThreeQuarters_le count
    have hlen : (cycleTake s.incorrectCards (⌈(count : ℚ) * 3 / 4⌉).toNat ++
        cycleTake s.correctCards (count - (⌈(count : ℚ) * 3 / 4⌉).toNat)).length
          = count := by
      rw [List.length_append, cycleTake_length _ _ h1, cycleTake_length _ _ h2,
        Nat.add_sub_cancel' hic]
    have hcond : ¬(cycleTake s.incorrectCards (⌈(count : ℚ) * 3 / 4⌉).toNat ++
        cycleTake s.correctCards (count - (⌈(count : ℚ) * 3 / 4⌉).toNat)).length
          < count := by
      rw [hlen]
      exact lt_irrefl count
    refine ⟨?_, ?_⟩
    · simp only [selectAdditionalCardsCore, if_neg hcond]
    · simp only [selectAdditionalCardsCore, if_neg hcond]
      exact hlen
  · have hsel : selectAdditionalCardsCore scenarioSession 2 = [cardA, cardB] := by
      simp only [selectAdditionalCardsCore, ceilThreeQuarters_two]
      rfl
    have hcorr : scenarioSession.correctCards = [cardA, cardB, cardC] := rfl
    refine ⟨rfl, hsel, ?_⟩
    rw [hsel, hcorr]
    intro c hc
    rcases List.mem_cons.mp hc with rfl | hc2
    · simp
    · rcases List.mem_cons.mp hc2 with rfl | hc3
      · simp
      · simp at hc3

/-- C6 witness: the amended statement applied to a session with one card in
each correctness list and a deficit of four. -/
theorem c6_replenish_witness :
    selectAdditionalCardsCore mixedSession 4 =
      cycleTake mixedSession.incorrectCards (⌈((4 : ℕ) : ℚ) * 3 / 4⌉).toNat ++
        cycleTake mixedSession.correctCards (4 - (⌈((4 : ℕ) : ℚ) * 3 / 4⌉).toNat) ∧
    (selectAdditionalCardsCore mixedSession 4).length = 4 :=
  c6_replenish_amended.1 mixedSession 4 (by simp [mixedSession]) (by simp [mixedSession])

/-- C9 counterexample: called with zero sessions but a single already-mastered
card, `getSetStatistics` returns masteryLevel 100, not 0: the mastery level
is computed from the cards alone and does not depend on the sessions. -/
theorem c9_mastery_counterexample :
    (getSetStatistics [masteredCard] []).masteryLevel = 100 ∧
    (getSetStatistics [masteredCard] []).masteryLevel ≠ 0 := by
  norm_num [getSetStatistics, masteredCard, List.filter]

/-- C9 amended: with zero sessions the accuracy and both attempt totals are 0
(the attempt-count guard prevents any division by zero, so no NaN arises),
and the mastery level — a function of the card list alone, unchanged by the
sessions argument — is 0 exactly when no card has ease factor above 2.5
together with an interval of at least 1 (in particular for every freshly
created card list), but not for arbitrary card lists. -/
theorem c9_zero_sessions_amended (cards : List Card) :
    (getSetStatistics cards []).accuracy = 0 ∧
    (getSetStatistics cards []).totalCorrect = 0 ∧
    (getSetStatistics cards []).totalIncorrect = 0 ∧
    ((∀ c ∈ cards, ¬(c.easeFactor > 2.5 ∧ c.interval ≥ 1)) →
      (getSetStatistics cards []).masteryLevel = 0) ∧
    (∀ sessions, (getSetStatistics cards sessions).masteryLevel =
      (getSetStatistics cards []).masteryLevel) := by
  refine ⟨rfl, rfl, rfl, ?_, ?_⟩
  · intro h
    have hf : cards.filter (fun c => decide (c.easeFactor > 2.5 ∧ c.interval ≥ 1)) = [] := by
      simp only [List.filter_eq_nil_iff]
      intro c hc
      simpa using h c hc
    simp only [getSetStatistics, hf, List.length_nil, Nat.cast_zero, zero_div, zero_mul, ite_self]
  · intro sessions
    simp only [getSetStatistics]

/-- C9 witness: the amended statement applied to a single freshly created
card (default ease 2.5, interval 0), which is not mastered. -/
theorem c9_zero_sessions_witness :
    (getSetStatistics [cardA] []).accuracy = 0 ∧
    (getSetStatistics [cardA] []).masteryLevel = 0 := by
  refine ⟨(c9_zero_sessions_amended [cardA]).1, ?_⟩
  refine (c9_zero_sessions_amended [cardA]).2.2.2.1 ?_
  intro c hc
  simp only [List.mem_singleton] at hc
  subst hc
  norm_num [cardA]

end Quizit
